import Mathlib

/-!
# Multi2Sim event-driven simulation library: events, frames and event types

A shallow embedding of `src/lib/esim/Event.h` (classes `EventType`,
`EventFrame`, `Event` and the comparison functor `Event::Compare`), together
with the properties of the ordering of events and of the call/return linkage
kept in an event frame.

Conventions of the embedding

* A raw pointer (`EventType *`, `FrequencyDomain *`, the function pointer
  `EventHandler`) and a `std::shared_ptr<EventFrame>` are modelled by the
  address they hold: `some a` for the object at address `a`, `none` for the
  null pointer.  Reference counts are not modelled.
* `long long` is modelled by `Int`; the header performs no arithmetic on
  cycles, only a signed comparison, so every result stated for all integers
  holds for all 64-bit values.
* A member function that modifies its object is a function returning the new
  object; a `const` member function is a function of the object.
-/

namespace esim

/-! ## Pointers -/

/-- Value of a `FrequencyDomain *`. -/
abbrev FrequencyDomainPtr := Option Nat

/-- Value of an `EventHandler`, a pointer to a function
`void (EventType *, EventFrame *)`. -/
abbrev EventHandler := Option Nat

/-- Value of an `EventType *`. -/
abbrev EventTypePtr := Option Nat

/-- Value of a `std::shared_ptr<EventFrame>`. -/
abbrev FramePtr := Option Nat

/-! ## `class EventType` -/

/-- Event type used for event registrations: the three private fields of
`class EventType`. -/
structure EventType where
  /-- Name of the event. -/
  name : String
  /-- Frequency domain. -/
  frequency_domain : FrequencyDomainPtr
  /-- Handler function. -/
  handler : EventHandler
  deriving DecidableEq, Repr

namespace EventType

/-- Constructor `EventType(name, frequency_domain, handler)`: each field is
initialised with the argument of the same name. -/
def new (name : String) (frequency_domain : FrequencyDomainPtr)
    (handler : EventHandler) : EventType :=
  ⟨name, frequency_domain, handler⟩

/-- Member `getName() const`: return the name of the event type. -/
def getName (self : EventType) : String := self.name

/-- Member `getFrequencyDomain() const`: return the frequency domain for this
event type. -/
def getFrequencyDomain (self : EventType) : FrequencyDomainPtr :=
  self.frequency_domain

/-- The implicitly declared public assignment operator `operator=`, copy and
move alike: the class has no `const` or reference member and deletes nothing,
so assignment is memberwise and each field of the object receives the field of
the argument. -/
def assign (_self other : EventType) : EventType :=
  ⟨other.name, other.frequency_domain, other.handler⟩

/-- The public operations that can be invoked on an existing `EventType`
object: the two member functions the class declares and the assignment
operator the language declares for it. -/
inductive Op where
  | getName
  | getFrequencyDomain
  | assign (other : EventType)
  deriving DecidableEq, Repr

/-- Value returned by a public operation of `EventType`; `object` is the
reference to the object itself that `operator=` returns. -/
inductive Ret where
  | name (s : String)
  | domain (d : FrequencyDomainPtr)
  | object
  deriving DecidableEq, Repr

/-- One invocation of a public operation: the returned value and the object
after the call.  The two declared members are `const`, so the body of neither
assigns to a field; assignment replaces the fields. -/
def call (self : EventType) : Op → Ret × EventType
  | .getName => (.name self.getName, self)
  | .getFrequencyDomain => (.domain self.getFrequencyDomain, self)
  | .assign other => (.object, self.assign other)

/-- The object after a sequence of invocations, in order. -/
def run (self : EventType) (ops : List Op) : EventType :=
  ops.foldl (fun s op => (s.call op).2) self

end EventType

/-! ## `class EventFrame` -/

/-- Data associated with an event: the two private fields of
`class EventFrame`. -/
structure EventFrame where
  /-- Parent frame if this event was invoked as a call. -/
  parent_frame : FramePtr
  /-- Event type to invoke upon return, or null if there is no parent event. -/
  return_event_type : EventTypePtr
  deriving DecidableEq, Repr

namespace EventFrame

/-- The implicit default constructor: `parent_frame` is a default-constructed
(empty) shared pointer and `return_event_type` has the default member
initialiser `nullptr`. -/
def new : EventFrame := ⟨none, none⟩

/-- Member `setParentFrame(parent_frame)`: set the parent frame. -/
def setParentFrame (self : EventFrame) (parent_frame : FramePtr) : EventFrame :=
  ⟨parent_frame, self.return_event_type⟩

/-- Member `setReturnEventType(return_event_type)`: set the return event. -/
def setReturnEventType (self : EventFrame) (return_event_type : EventTypePtr) :
    EventFrame :=
  ⟨self.parent_frame, return_event_type⟩

/-- Member `getParentFrame() const`: get the parent frame. -/
def getParentFrame (self : EventFrame) : FramePtr := self.parent_frame

/-- Member `getReturnEventType() const`: get the return event type. -/
def getReturnEventType (self : EventFrame) : EventTypePtr :=
  self.return_event_type

/-- The public member functions that can be invoked on an existing
`EventFrame` object, with their arguments. -/
inductive Op where
  | setParentFrame (parent_frame : FramePtr)
  | setReturnEventType (return_event_type : EventTypePtr)
  | getParentFrame
  | getReturnEventType
  deriving DecidableEq, Repr

/-- The object after one invocation of a public member function. -/
def step (self : EventFrame) : Op → EventFrame
  | .setParentFrame p => self.setParentFrame p
  | .setReturnEventType t => self.setReturnEventType t
  | .getParentFrame => self
  | .getReturnEventType => self

/-- The object after a sequence of invocations, in order. -/
def run (self : EventFrame) (ops : List Op) : EventFrame :=
  ops.foldl step self

/-- The argument of the last `setParentFrame` of a sequence of invocations,
if there is one. -/
def lastParentSet : List Op → Option FramePtr
  | [] => none
  | .setParentFrame p :: ops => some ((lastParentSet ops).getD p)
  | _ :: ops => lastParentSet ops

/-- The argument of the last `setReturnEventType` of a sequence of
invocations, if there is one. -/
def lastReturnSet : List Op → Option EventTypePtr
  | [] => none
  | .setReturnEventType t :: ops => some ((lastReturnSet ops).getD t)
  | _ :: ops => lastReturnSet ops

/-- A frame that a newly constructed frame can become through its public
member functions. -/
def Reachable (f : EventFrame) : Prop := ∃ ops : List Op, new.run ops = f

/-- The invariant documented at the field `return_event_type`: the return
event type is null if there is no parent. -/
def RootHasNoReturn (f : EventFrame) : Prop :=
  f.getParentFrame = none → f.getReturnEventType = none

end EventFrame

/-! ## `class Event` -/

/-- A scheduled event: the three private fields of `class Event`. -/
structure Event where
  /-- Event type. -/
  type : EventTypePtr
  /-- Data associated with the event. -/
  frame : FramePtr
  /-- Cycle for which the event was scheduled in fastest domain. -/
  cycle : Int
  deriving DecidableEq, Repr

namespace Event

/-- Constructor `Event(type, frame, cycle)`: each field is initialised with
the argument of the same name. -/
def new (type : EventTypePtr) (frame : FramePtr) (cycle : Int) : Event :=
  ⟨type, frame, cycle⟩

/-- Functor `Event::Compare`: `operator()(lhs, rhs)` returns
`lhs.cycle < rhs.cycle`. -/
def Compare (lhs rhs : Event) : Bool := decide (lhs.cycle < rhs.cycle)

/-- Member `getType() const`: return the event type. -/
def getType (self : Event) : EventTypePtr := self.type

/-- Member `getFrame() const`: return the frame associated with the event. -/
def getFrame (self : Event) : FramePtr := self.frame

end Event

/-! ## The pending-event container

`Event.h` defines the ordering of events but not the container that holds
the pending ones; the engine that owns it is not part of the header. -/

/-- Modelled from the spec: the pending-event container of the engine, absent
from the source, as a sequence in dispatch order (the head is dispatched
first) kept ordered with `Event::Compare`.  Insertion at the upper bound, as
`std::multiset::insert` does: the new event goes in front of the first
pending event that `Compare` places after it, hence behind every pending
event of the same cycle. -/
def insertStable (e : Event) : List Event → List Event
  | [] => [e]
  | x :: q => if Event.Compare e x then e :: x :: q else x :: insertStable e q

/-- Modelled from the spec: another container ordered with `Event::Compare`,
inserting at the lower bound: the new event goes behind the pending events
that `Compare` places before it, hence in front of every pending event of
the same cycle. -/
def insertFront (e : Event) : List Event → List Event
  | [] => [e]
  | x :: q => if Event.Compare x e then x :: insertFront e q else e :: x :: q

/-- The dispatch order of a sequence of scheduled events, given in schedule
order, for a container with insertion function `ins`: the events are inserted
one after the other into the empty container. -/
def dispatchOrder (ins : Event → List Event → List Event) (es : List Event) :
    List Event :=
  es.foldl (fun q e => ins e q) []

/-- A sequence of events is ordered for `Event::Compare` when `Compare` places
no event before one that precedes it in the sequence. -/
def CompareOrdered (q : List Event) : Prop :=
  q.Pairwise (fun x y => Event.Compare y x = false)

/-- The order of the determinism contract on events tagged with their
position in the schedule: cycle ascending, then schedule order ascending. -/
def scheduleLE (a b : Nat × Event) : Prop :=
  a.2.cycle < b.2.cycle ∨ (a.2.cycle = b.2.cycle ∧ a.1 ≤ b.1)

instance scheduleLE.decidable : DecidableRel scheduleLE := fun a b =>
  inferInstanceAs (Decidable (a.2.cycle < b.2.cycle ∨ (a.2.cycle = b.2.cycle ∧ a.1 ≤ b.1)))

/-- The sequence of scheduled events sorted by (cycle ascending, schedule
order ascending), following the words of the specification: every event is
tagged with its position in the schedule, the tagged events are sorted by
`scheduleLE`, and the tags are dropped. -/
def sortedBySchedule (es : List Event) : List Event :=
  (es.enum.insertionSort scheduleLE).map Prod.snd

/-- Insertion at the upper bound on events tagged with their position in the
schedule; the tag takes no part in the comparison.  Used to relate
`insertStable` to `sortedBySchedule`. -/
def insertStableTagged (p : Nat × Event) : List (Nat × Event) → List (Nat × Event)
  | [] => [p]
  | x :: q => if Event.Compare p.2 x.2 then p :: x :: q else x :: insertStableTagged p q

/-! ## The engine

The class `Engine` is declared in another header of the library, which is not
among the sources; its part of the call/return protocol is modelled from the
specification. -/

/-- Modelled from the spec: a frequency domain (`class FrequencyDomain` is
only forward-declared in `Event.h`): a name and a frequency in cycles per
second. -/
structure FrequencyDomain where
  name : String
  frequency : Nat
  deriving DecidableEq, Repr

/-- Modelled from the spec: the error taxonomy of the engine. -/
inductive EngineError where
  | ConfigurationError
  | SchedulingError
  | LookupError
  deriving DecidableEq, Repr

/-- Modelled from the spec: the state of the engine (`class Engine` is absent
from the source): the registry of frequency domains and the registry of event
types, which own the storage (a pointer `some i` handed out at registration
designates entry `i`), the frequency of the fastest domain, the pending
events in dispatch order, and the current cycle in the fastest domain. -/
structure Engine where
  frequency_domains : List FrequencyDomain
  event_types : List EventType
  fastest_frequency : Nat
  events : List Event
  cycle : Int
  deriving DecidableEq, Repr

namespace Engine

/-- Modelled from the spec: `CyclesToFastest`, absent from the source: scaling
by `fastestFrequency / domainFrequency`, rounded up. -/
def CyclesToFastest (e : Engine) (d : FrequencyDomain) (domainCycles : Int) : Int :=
  -((-(domainCycles * (e.fastest_frequency : Int))) / (d.frequency : Int))

/-- Modelled from the spec: the frequency domain of the event type behind a
pointer, looked up in the registries of the engine. -/
def domainOf (e : Engine) (eventType : EventTypePtr) : Option FrequencyDomain :=
  match eventType with
  | none => none
  | some i =>
    match e.event_types.get? i with
    | none => none
    | some t =>
      match t.getFrequencyDomain with
      | none => none
      | some j => e.frequency_domains.get? j

/-- Modelled from the spec: `Engine::Call(eventType, frame, afterCycles)`,
absent from the source: schedules one event at the current fastest cycle plus
`CyclesToFastest(afterCycles)` in the domain of the event type.  A negative
delay fails with `SchedulingError`; an event type that is not in the registry
is reported as `LookupError`. -/
def Call (e : Engine) (eventType : EventTypePtr) (frame : FramePtr)
    (afterCycles : Int) : Except EngineError Engine :=
  if afterCycles < 0 then .error .SchedulingError
  else
    match e.domainOf eventType with
    | none => .error .LookupError
    | some d =>
      .ok ⟨e.frequency_domains, e.event_types, e.fastest_frequency,
        insertStable
          (Event.new eventType frame (e.cycle + e.CyclesToFastest d afterCycles))
          e.events,
        e.cycle⟩

/-- Modelled from the spec: `Engine::Return(frame, delayCycles)`, absent from
the source.  If the parent frame is null this is a no-op.  If the parent frame
is non-null and the return event type is set, the return event type is
scheduled with the parent frame, and the link of the frame is then cleared.
The specification says nothing of a frame with a parent and no return event
type; nothing is scheduled for it.  The result is the engine and the frame
after the call. -/
def Return (e : Engine) (frame : EventFrame) (delayCycles : Int) :
    Except EngineError (Engine × EventFrame) :=
  match frame.getParentFrame with
  | none => .ok (e, frame)
  | some parent =>
    match frame.getReturnEventType with
    | none => .ok (e, frame)
    | some t =>
      match e.Call (some t) (some parent) delayCycles with
      | .error err => .error err
      | .ok e2 => .ok (e2, (frame.setParentFrame none).setReturnEventType none)

end Engine

/-! ## Properties of `Event::Compare` -/

/-- C1: for events built by the constructor from arbitrary types, frames and
cycles, `Event::Compare` holds exactly when the cycle of the left event is
strictly less than the cycle of the right event; replacing the types and the
frames by any others does not change the result; and of two events at
distinct cycles, and only of those, `Compare` places one before the other. -/
theorem Event.compare_iff_cycle_lt (ta tb ta2 tb2 : EventTypePtr)
    (fa fb fa2 fb2 : FramePtr) (ca cb : Int) :
    (Event.Compare (Event.new ta fa ca) (Event.new tb fb cb) = true ↔ ca < cb) ∧
    Event.Compare (Event.new ta fa ca) (Event.new tb fb cb) =
      Event.Compare (Event.new ta2 fa2 ca) (Event.new tb2 fb2 cb) ∧
    ((Event.Compare (Event.new ta fa ca) (Event.new tb fb cb) = true ∨
        Event.Compare (Event.new tb fb cb) (Event.new ta fa ca) = true) ↔ ca ≠ cb) := by
  refine ⟨?_, ?_, ?_⟩
  · simp [Event.Compare, Event.new]
  · simp [Event.Compare, Event.new]
  · simp only [Event.Compare, Event.new, decide_eq_true_eq]
    omega

/-- C7: `Event::Compare` is a strict weak ordering: it is irreflexive,
asymmetric and transitive, and two events are incomparable exactly when they
have the same cycle, which makes incomparability transitive. -/
theorem Event.compare_strict_weak_order :
    (∀ a : Event, Event.Compare a a = false) ∧
    (∀ a b : Event, Event.Compare a b = true → Event.Compare b a = false) ∧
    (∀ a b c : Event, Event.Compare a b = true → Event.Compare b c = true →
      Event.Compare a c = true) ∧
    (∀ a b : Event, (Event.Compare a b = false ∧ Event.Compare b a = false) ↔
      a.cycle = b.cycle) ∧
    (∀ a b c : Event, (Event.Compare a b = false ∧ Event.Compare b a = false) →
      (Event.Compare b c = false ∧ Event.Compare c b = false) →
      (Event.Compare a c = false ∧ Event.Compare c a = false)) := by
  refine ⟨?_, ?_, ?_, ?_, ?_⟩
  · intro a
    simp [Event.Compare]
  · intro a b
    simp only [Event.Compare, decide_eq_true_eq, decide_eq_false_iff_not]
    omega
  · intro a b c
    simp only [Event.Compare, decide_eq_true_eq]
    omega
  · intro a b
    simp only [Event.Compare, decide_eq_false_iff_not]
    omega
  · intro a b c
    simp only [Event.Compare, decide_eq_false_iff_not]
    omega

theorem Event.compare_strict_weak_order_witness :
    Event.Compare (Event.new (some 1) none 3) (Event.new (some 2) (some 9) 4) = true ∧
    Event.Compare (Event.new (some 2) (some 9) 4) (Event.new none (some 8) 7) = true ∧
    Event.Compare (Event.new (some 1) none 3) (Event.new none (some 8) 7) = true ∧
    Event.Compare (Event.new (some 2) (some 9) 4) (Event.new (some 1) none 3) = false :=
  ⟨by decide, by decide,
    Event.compare_strict_weak_order.2.2.1
      (Event.new (some 1) none 3) (Event.new (some 2) (some 9) 4)
      (Event.new none (some 8) 7) (by decide) (by decide),
    Event.compare_strict_weak_order.2.1
      (Event.new (some 1) none 3) (Event.new (some 2) (some 9) 4) (by decide)⟩

/-! ## Dispatch order -/

theorem scheduleLE.total (a b : Nat × Event) : scheduleLE a b ∨ scheduleLE b a := by
  unfold scheduleLE
  omega

theorem scheduleLE.trans {a b c : Nat × Event} (h1 : scheduleLE a b)
    (h2 : scheduleLE b c) : scheduleLE a c := by
  unfold scheduleLE at *
  omega

theorem insertStableTagged_perm (p : Nat × Event) :
    ∀ q : List (Nat × Event), (insertStableTagged p q).Perm (p :: q)
  | [] => List.Perm.refl _
  | x :: q => by
    unfold insertStableTagged
    split
    · exact List.Perm.refl _
    · exact ((insertStableTagged_perm p q).cons x).trans (List.Perm.swap p x q)

theorem insertStableTagged_snd (p : Nat × Event) :
    ∀ q : List (Nat × Event),
      (insertStableTagged p q).map Prod.snd = insertStable p.2 (q.map Prod.snd)
  | [] => rfl
  | x :: q => by
    unfold insertStableTagged
    by_cases h : Event.Compare p.2 x.2 = true
    · simp [insertStable, h]
    · simp [insertStable, h, insertStableTagged_snd p q]

theorem insertStableTagged_sorted (p : Nat × Event) :
    ∀ q : List (Nat × Event), q.Sorted scheduleLE → (∀ x ∈ q, x.1 < p.1) →
      (insertStableTagged p q).Sorted scheduleLE
  | [], _, _ => List.sorted_singleton p
  | x :: q, hs, hlt => by
    have hx : ∀ y ∈ q, scheduleLE x y := fun y hy => List.rel_of_sorted_cons hs y hy
    have hq : q.Sorted scheduleLE := hs.of_cons
    unfold insertStableTagged
    by_cases h : Event.Compare p.2 x.2 = true
    · rw [if_pos h]
      have hpx : scheduleLE p x := by
        simp only [Event.Compare, decide_eq_true_eq] at h
        exact Or.inl h
      refine List.sorted_cons.2 ⟨?_, hs⟩
      intro y hy
      rcases List.mem_cons.1 hy with rfl | hy
      · exact hpx
      · exact scheduleLE.trans hpx (hx y hy)
    · rw [if_neg h]
      have hxp : scheduleLE x p := by
        simp only [Event.Compare, decide_eq_true_eq] at h
        have := hlt x (List.mem_cons_self _ _)
        unfold scheduleLE
        omega
      refine List.sorted_cons.2 ⟨?_, ?_⟩
      · intro y hy
        rcases List.mem_cons.1 ((insertStableTagged_perm p q).mem_iff.1 hy) with rfl | hy
        · exact hxp
        · exact hx y hy
      · exact insertStableTagged_sorted p q hq
          (fun y hy => hlt y (List.mem_cons_of_mem _ hy))

theorem foldl_tagged_snd :
    ∀ (es : List Event) (n : Nat) (q : List (Nat × Event)),
      ((es.enumFrom n).foldl (fun q p => insertStableTagged p q) q).map Prod.snd =
        es.foldl (fun q e => insertStable e q) (q.map Prod.snd)
  | [], _, _ => rfl
  | e :: es, n, q => by
    simp only [List.enumFrom_cons, List.foldl_cons]
    rw [foldl_tagged_snd es (n + 1) (insertStableTagged (n, e) q), insertStableTagged_snd]

theorem foldl_tagged_perm :
    ∀ (l q : List (Nat × Event)),
      (l.foldl (fun q p => insertStableTagged p q) q).Perm (l ++ q)
  | [], _ => List.Perm.refl _
  | p :: l, q => by
    simp only [List.foldl_cons]
    refine (foldl_tagged_perm l (insertStableTagged p q)).trans ?_
    refine ((insertStableTagged_perm p q).append_left l).trans ?_
    exact List.perm_middle

theorem foldl_tagged_sorted :
    ∀ (es : List Event) (n : Nat) (q : List (Nat × Event)),
      q.Sorted scheduleLE → (∀ x ∈ q, x.1 < n) →
      ((es.enumFrom n).foldl (fun q p => insertStableTagged p q) q).Sorted scheduleLE
  | [], _, _, hs, _ => hs
  | e :: es, n, q, hs, hlt => by
    simp only [List.enumFrom_cons, List.foldl_cons]
    refine foldl_tagged_sorted es (n + 1) _ (insertStableTagged_sorted (n, e) q hs hlt) ?_
    intro x hx
    rcases List.mem_cons.1 ((insertStableTagged_perm (n, e) q).mem_iff.1 hx) with rfl | hx
    · exact Nat.lt_succ_self n
    · exact Nat.lt_succ_of_lt (hlt x hx)

theorem sorted_perm_unique :
    ∀ (l₁ l₂ : List (Nat × Event)),
      (∀ a ∈ l₁, ∀ b ∈ l₁, a.1 = b.1 → a = b) → l₁.Perm l₂ →
      l₁.Sorted scheduleLE → l₂.Sorted scheduleLE → l₁ = l₂
  | [], l₂, _, hp, _, _ => (List.Perm.nil_eq hp)
  | a :: l₁, [], _, hp, _, _ => absurd hp.length_eq (by simp)
  | a :: l₁, b :: l₂, hkey, hp, h1, h2 => by
    have hab : a = b := by
      have ha : a ∈ b :: l₂ := hp.mem_iff.1 (List.mem_cons_self _ _)
      have hb : b ∈ a :: l₁ := hp.mem_iff.2 (List.mem_cons_self _ _)
      rcases List.mem_cons.1 ha with h | ha2
      · exact h
      · rcases List.mem_cons.1 hb with h | hb2
        · exact h.symm
        · have hle1 : scheduleLE a b := List.rel_of_sorted_cons h1 b hb2
          have hle2 : scheduleLE b a := List.rel_of_sorted_cons h2 a ha2
          refine hkey a (List.mem_cons_self _ _) b hb ?_
          unfold scheduleLE at hle1 hle2
          omega
    subst hab
    have htl : l₁ = l₂ :=
      sorted_perm_unique l₁ l₂
        (fun x hx y hy => hkey x (List.mem_cons_of_mem _ hx) y (List.mem_cons_of_mem _ hy))
        (List.Perm.cons_inv hp) h1.of_cons h2.of_cons
    rw [htl]

theorem enum_key_unique (es : List Event) :
    ∀ a ∈ es.enum, ∀ b ∈ es.enum, a.1 = b.1 → a = b := by
  intro a ha b hb hab
  have h1 := List.mem_enum_iff_getElem?.1 ha
  have h2 := List.mem_enum_iff_getElem?.1 hb
  rw [hab, h2] at h1
  exact Prod.ext hab (Option.some.inj h1).symm

theorem dispatchOrder_insertStable (es : List Event) :
    dispatchOrder insertStable es = sortedBySchedule es := by
  haveI htotal : IsTotal (Nat × Event) scheduleLE := ⟨scheduleLE.total⟩
  haveI htrans : IsTrans (Nat × Event) scheduleLE := ⟨fun _ _ _ => scheduleLE.trans⟩
  have hsnd := foldl_tagged_snd es 0 []
  have hperm : (es.enum.foldl (fun q p => insertStableTagged p q) []).Perm es.enum := by
    simpa using foldl_tagged_perm es.enum []
  have hsorted : (es.enum.foldl (fun q p => insertStableTagged p q) []).Sorted scheduleLE :=
    foldl_tagged_sorted es 0 [] List.sorted_nil (fun x hx => absurd hx (List.not_mem_nil x))
  have heq : es.enum.foldl (fun q p => insertStableTagged p q) [] =
      es.enum.insertionSort scheduleLE := by
    refine sorted_perm_unique _ _ ?_
      (hperm.trans (List.perm_insertionSort scheduleLE es.enum).symm) hsorted
      (List.sorted_insertionSort scheduleLE es.enum)
    intro a ha b hb
    exact enum_key_unique es a (hperm.mem_iff.1 ha) b (hperm.mem_iff.1 hb)
  unfold dispatchOrder sortedBySchedule
  rw [← heq]
  exact hsnd.symm

theorem insertFront_ordered (e : Event) :
    ∀ q : List Event, CompareOrdered q → CompareOrdered (insertFront e q) := by
  intro q
  induction q with
  | nil => intro _; simp [insertFront, CompareOrdered]
  | cons x q ih =>
    intro hq
    unfold CompareOrdered at hq ih ⊢
    have hx := (List.pairwise_cons.1 hq).1
    have hq2 := (List.pairwise_cons.1 hq).2
    unfold insertFront
    by_cases h : Event.Compare x e = true
    · rw [if_pos h]
      refine List.pairwise_cons.2 ⟨?_, ih hq2⟩
      intro y hy
      have hmem : ∀ (l : List Event), y ∈ insertFront e l → y = e ∨ y ∈ l := by
        intro l
        induction l with
        | nil => intro hy; simpa [insertFront] using hy
        | cons z l ihl =>
          intro hy
          unfold insertFront at hy
          split at hy
          · rcases List.mem_cons.1 hy with rfl | hy
            · exact Or.inr (List.mem_cons_self _ _)
            · rcases ihl hy with h | h
              · exact Or.inl h
              · exact Or.inr (List.mem_cons_of_mem _ h)
          · rcases List.mem_cons.1 hy with rfl | hy
            · exact Or.inl rfl
            · exact Or.inr hy
      rcases hmem q hy with rfl | hy
      · simp only [Event.Compare, decide_eq_true_eq, decide_eq_false_iff_not] at h ⊢
        omega
      · exact hx y hy
    · rw [if_neg h]
      refine List.pairwise_cons.2 ⟨?_, hq⟩
      intro y hy
      rcases List.mem_cons.1 hy with rfl | hy
      · simp only [Bool.not_eq_true] at h
        exact h
      · have := hx y hy
        simp only [Event.Compare, decide_eq_true_eq, decide_eq_false_iff_not] at h this ⊢
        omega

/-- C2, as stated, fails: two events of the same cycle are not ordered by
`Event::Compare` in either direction, whatever the order in which they were
scheduled, and a container that inserts at the lower bound of `Compare`
dispatches the second scheduled event first: its dispatch order is ordered for
`Compare` and is not the schedule sorted by (cycle, schedule order). -/
theorem Event.compare_does_not_break_ties :
    (Event.new (some 1) (some 10) 5).cycle = (Event.new (some 2) (some 20) 5).cycle ∧
    Event.Compare (Event.new (some 1) (some 10) 5) (Event.new (some 2) (some 20) 5) = false ∧
    Event.Compare (Event.new (some 2) (some 20) 5) (Event.new (some 1) (some 10) 5) = false ∧
    CompareOrdered
      (dispatchOrder insertFront
        [Event.new (some 1) (some 10) 5, Event.new (some 2) (some 20) 5]) ∧
    dispatchOrder insertFront
        [Event.new (some 1) (some 10) 5, Event.new (some 2) (some 20) 5] =
      [Event.new (some 2) (some 20) 5, Event.new (some 1) (some 10) 5] ∧
    sortedBySchedule [Event.new (some 1) (some 10) 5, Event.new (some 2) (some 20) 5] =
      [Event.new (some 1) (some 10) 5, Event.new (some 2) (some 20) 5] ∧
    dispatchOrder insertFront
        [Event.new (some 1) (some 10) 5, Event.new (some 2) (some 20) 5] ≠
      sortedBySchedule [Event.new (some 1) (some 10) 5, Event.new (some 2) (some 20) 5] := by
  refine ⟨rfl, by decide, by decide, ?_, by decide, by decide, by decide⟩
  exact insertFront_ordered _ _
    (insertFront_ordered _ _ (List.Pairwise.nil))

/-- C2, amended: `Event::Compare` orders events by cycle only.  It places an
event of a lower cycle before an event of a higher cycle, and it places
neither of two events of the same cycle before the other, so ties are left to
the container; with a container that inserts at the upper bound of `Compare`
(behind the pending events of the same cycle), the dispatch order of every
sequence of scheduled events is that sequence sorted by (cycle ascending,
schedule order ascending). -/
theorem Event.compare_by_cycle_stable_dispatch :
    (∀ a b : Event, a.cycle < b.cycle →
      Event.Compare a b = true ∧ Event.Compare b a = false) ∧
    (∀ a b : Event, a.cycle = b.cycle →
      Event.Compare a b = false ∧ Event.Compare b a = false) ∧
    (∀ es : List Event, dispatchOrder insertStable es = sortedBySchedule es) := by
  refine ⟨?_, ?_, dispatchOrder_insertStable⟩
  · intro a b h
    simp only [Event.Compare, decide_eq_true_eq, decide_eq_false_iff_not]
    omega
  · intro a b h
    simp only [Event.Compare, decide_eq_false_iff_not]
    omega

theorem Event.compare_by_cycle_stable_dispatch_witness :
    (Event.new (some 1) (some 10) 5).cycle = (Event.new (some 2) (some 20) 5).cycle ∧
    (Event.Compare (Event.new (some 1) (some 10) 5) (Event.new (some 2) (some 20) 5) = false ∧
      Event.Compare (Event.new (some 2) (some 20) 5) (Event.new (some 1) (some 10) 5) = false) ∧
    (Event.new (some 3) (some 30) 2).cycle < (Event.new (some 1) (some 10) 5).cycle ∧
    (Event.Compare (Event.new (some 3) (some 30) 2) (Event.new (some 1) (some 10) 5) = true ∧
      Event.Compare (Event.new (some 1) (some 10) 5) (Event.new (some 3) (some 30) 2) = false) ∧
    dispatchOrder insertStable
        [Event.new (some 1) (some 10) 5, Event.new (some 2) (some 20) 5,
          Event.new (some 3) (some 30) 2] =
      sortedBySchedule
        [Event.new (some 1) (some 10) 5, Event.new (some 2) (some 20) 5,
          Event.new (some 3) (some 30) 2] ∧
    dispatchOrder insertStable
        [Event.new (some 1) (some 10) 5, Event.new (some 2) (some 20) 5,
          Event.new (some 3) (some 30) 2] =
      [Event.new (some 3) (some 30) 2, Event.new (some 1) (some 10) 5,
        Event.new (some 2) (some 20) 5] :=
  ⟨rfl,
    Event.compare_by_cycle_stable_dispatch.2.1
      (Event.new (some 1) (some 10) 5) (Event.new (some 2) (some 20) 5) rfl,
    by decide,
    Event.compare_by_cycle_stable_dispatch.1
      (Event.new (some 3) (some 30) 2) (Event.new (some 1) (some 10) 5) (by decide),
    Event.compare_by_cycle_stable_dispatch.2.2 _,
    by decide⟩

/-! ## Properties of `EventType` -/

theorem EventFrame.run_cons (f : EventFrame) (op : EventFrame.Op)
    (ops : List EventFrame.Op) : f.run (op :: ops) = (f.step op).run ops := rfl

theorem EventFrame.run_getParentFrame (ops : List EventFrame.Op) :
    ∀ f : EventFrame,
      (f.run ops).getParentFrame = (EventFrame.lastParentSet ops).getD f.getParentFrame := by
  induction ops with
  | nil => intro f; rfl
  | cons op ops ih =>
    intro f
    rw [EventFrame.run_cons, ih]
    cases op <;> cases hl : EventFrame.lastParentSet ops <;>
      simp [EventFrame.lastParentSet, EventFrame.step, EventFrame.setParentFrame,
        EventFrame.setReturnEventType, EventFrame.getParentFrame, hl]

theorem EventFrame.run_getReturnEventType (ops : List EventFrame.Op) :
    ∀ f : EventFrame,
      (f.run ops).getReturnEventType =
        (EventFrame.lastReturnSet ops).getD f.getReturnEventType := by
  induction ops with
  | nil => intro f; rfl
  | cons op ops ih =>
    intro f
    rw [EventFrame.run_cons, ih]
    cases op <;> cases hl : EventFrame.lastReturnSet ops <;>
      simp [EventFrame.lastReturnSet, EventFrame.step, EventFrame.setParentFrame,
        EventFrame.setReturnEventType, EventFrame.getReturnEventType, hl]

/-- C5: after `setParentFrame(p)` the parent frame read back is `p`, after
`setReturnEventType(t)` the return event type read back is `t`, for null and
non-null arguments alike; a later value replaces an earlier one, and after any
sequence of public operations each getter returns the argument of the last
corresponding setter of the sequence (the value before the sequence when the
sequence has none). -/
theorem EventFrame.set_get_round_trip (f : EventFrame) (p p0 : FramePtr)
    (t t0 : EventTypePtr) (ops : List EventFrame.Op) :
    (f.setParentFrame p).getParentFrame = p ∧
    (f.setReturnEventType t).getReturnEventType = t ∧
    ((f.setParentFrame p0).setParentFrame p).getParentFrame = p ∧
    ((f.setReturnEventType t0).setReturnEventType t).getReturnEventType = t ∧
    ((f.run ops).setParentFrame p).getParentFrame = p ∧
    ((f.run ops).setReturnEventType t).getReturnEventType = t ∧
    (f.run ops).getParentFrame =
      (EventFrame.lastParentSet ops).getD f.getParentFrame ∧
    (f.run ops).getReturnEventType =
      (EventFrame.lastReturnSet ops).getD f.getReturnEventType :=
  ⟨rfl, rfl, rfl, rfl, rfl, rfl, EventFrame.run_getParentFrame ops f,
    EventFrame.run_getReturnEventType ops f⟩

/-- C8: a newly constructed frame is a root frame: its parent frame is null
and its return event type is null, so it satisfies the invariant that a frame
without parent has no return event type. -/
theorem EventFrame.new_is_root :
    EventFrame.new.getParentFrame = none ∧
    EventFrame.new.getReturnEventType = none ∧
    EventFrame.RootHasNoReturn EventFrame.new :=
  ⟨rfl, rfl, fun _ => rfl⟩

/-- C9: `setParentFrame` leaves the return event type unchanged,
`setReturnEventType` leaves the parent frame unchanged, and the two setters
commute. -/
theorem EventFrame.setters_independent (f : EventFrame) (p : FramePtr)
    (t : EventTypePtr) :
    (f.setParentFrame p).getReturnEventType = f.getReturnEventType ∧
    (f.setReturnEventType t).getParentFrame = f.getParentFrame ∧
    (f.setParentFrame p).setReturnEventType t =
      (f.setReturnEventType t).setParentFrame p :=
  ⟨rfl, rfl, rfl⟩

/-- C3: the frame obtained from a newly constructed frame by the single call
`setReturnEventType(t)` with a non-null `t` is reachable, has a null parent
frame and a non-null return event type, so it violates the invariant; so does
the frame obtained by setting a parent and a return event type and then
setting the parent back to null. -/
theorem EventFrame.root_invariant_not_enforced :
    EventFrame.Reachable (EventFrame.new.run [.setReturnEventType (some 1)]) ∧
    (EventFrame.new.run [.setReturnEventType (some 1)]).getParentFrame = none ∧
    (EventFrame.new.run [.setReturnEventType (some 1)]).getReturnEventType = some 1 ∧
    ¬ EventFrame.RootHasNoReturn (EventFrame.new.run [.setReturnEventType (some 1)]) ∧
    ¬ EventFrame.RootHasNoReturn
        (EventFrame.new.run
          [.setParentFrame (some 7), .setReturnEventType (some 1), .setParentFrame none]) := by
  refine ⟨⟨_, rfl⟩, rfl, rfl, ?_, ?_⟩
  · intro h
    exact absurd (h rfl) (by decide)
  · intro h
    exact absurd (h rfl) (by decide)

/-! ## Properties of `Engine::Return` -/

/-- The scenario of the specification: domains "Fast" at 1000 Hz and "Slow" at
500 Hz, event type "Tick" on "Slow"; `Call` with delay 1 from fastest cycle 0
schedules the event at fastest cycle 2. -/
theorem Engine.call_tick_scenario :
    Engine.Call
        ⟨[⟨"Fast", 1000⟩, ⟨"Slow", 500⟩], [EventType.new "Tick" (some 1) (some 0)],
          1000, [], 0⟩
        (some 0) (some 5) 1 =
      .ok ⟨[⟨"Fast", 1000⟩, ⟨"Slow", 500⟩], [EventType.new "Tick" (some 1) (some 0)],
          1000, [Event.new (some 0) (some 5) 2], 0⟩ := by
  rfl

/-- On a frame with a parent and a return event type, `Return` schedules the
return event type with the parent frame at the current cycle and clears the
link, so that a second `Return` on the resulting frame schedules nothing. -/
theorem Engine.return_with_parent_scenario :
    Engine.Return
        ⟨[⟨"Fast", 1000⟩], [EventType.new "Tick" (some 0) (some 0)], 1000, [], 3⟩
        ((EventFrame.new.setParentFrame (some 5)).setReturnEventType (some 0)) 0 =
      .ok (⟨[⟨"Fast", 1000⟩], [EventType.new "Tick" (some 0) (some 0)], 1000,
          [Event.new (some 0) (some 5) 3], 3⟩, EventFrame.new) ∧
    Engine.Return
        ⟨[⟨"Fast", 1000⟩], [EventType.new "Tick" (some 0) (some 0)], 1000,
          [Event.new (some 0) (some 5) 3], 3⟩ EventFrame.new 0 =
      .ok (⟨[⟨"Fast", 1000⟩], [EventType.new "Tick" (some 0) (some 0)], 1000,
          [Event.new (some 0) (some 5) 3], 3⟩, EventFrame.new) := by
  exact ⟨rfl, rfl⟩

/-- C6: for every engine state, every delay and every frame whose parent
frame is null, `Return` succeeds and yields the same engine state (same
pending events, same current cycle, same registries) and the same frame: no
error is raised and no event is scheduled. -/
theorem Engine.return_without_parent_is_noop (e : Engine) (f : EventFrame)
    (delayCycles : Int) (hroot : f.getParentFrame = none) :
    e.Return f delayCycles = .ok (e, f) ∧
    (∀ e2 f2, e.Return f delayCycles = .ok (e2, f2) →
      e2.events = e.events ∧ e2.cycle = e.cycle ∧ f2 = f) ∧
    (∀ err, e.Return f delayCycles ≠ .error err) := by
  have h : e.Return f delayCycles = .ok (e, f) := by
    unfold Engine.Return
    rw [hroot]
  refine ⟨h, ?_, ?_⟩
  · intro e2 f2 h2
    rw [h] at h2
    injection h2 with h3
    injection h3 with h4 h5
    subst h4
    subst h5
    exact ⟨rfl, rfl, rfl⟩
  · intro err h2
    rw [h] at h2
    cases h2

theorem Engine.return_without_parent_is_noop_witness :
    (EventFrame.new.setReturnEventType (some 0)).getParentFrame = none ∧
    Engine.Return
        ⟨[⟨"Fast", 1000⟩], [EventType.new "Tick" (some 0) (some 0)], 1000,
          [Event.new (some 0) (some 3) 4], 2⟩
        (EventFrame.new.setReturnEventType (some 0)) (-1) =
      .ok (⟨[⟨"Fast", 1000⟩], [EventType.new "Tick" (some 0) (some 0)], 1000,
          [Event.new (some 0) (some 3) 4], 2⟩,
        EventFrame.new.setReturnEventType (some 0)) :=
  ⟨rfl, (Engine.return_without_parent_is_noop
    ⟨[⟨"Fast", 1000⟩], [EventType.new "Tick" (some 0) (some 0)], 1000,
      [Event.new (some 0) (some 3) 4], 2⟩
    (EventFrame.new.setReturnEventType (some 0)) (-1) rfl).1⟩

end esim
